import Mathlib

/-!
Verification development for the skrl excerpt: the JAX function-approximator
base (`skrl/models/jax/base.py`) and the torch Gaussian policy mixin
(`skrl/models/torch/gaussian.py`).

Machine floats are idealized as real numbers `ℝ`; a float NaN is modelled by
`Option.none` in the scalar type `F := Option ℝ` used for the tensor pipeline.
Parameter arrays of the JAX base use `ℚ` (exact, decidable arithmetic stands
in for the float arrays, whose claims are purely algebraic/structural).
-/

namespace Skrl

/-! ## Space-size resolver (`Model._get_space_size`, skrl/models/jax/base.py) -/

/-- The tagged union of Python values accepted (or rejected) by
`Model._get_space_size`: an `int`, a `tuple`/`list` shape, gym spaces
(Discrete/Box/Dict or some other `gym.Space` subclass), gymnasium spaces
(likewise), or a value of any other type. -/
inductive PySpace where
  | ofInt (n : ℤ)
  | ofShape (shape : List ℕ)
  | gymDiscrete (n : ℕ)
  | gymBox (shape : List ℕ)
  | gymDict (spaces : List (String × PySpace))
  | gymOther
  | gymnasiumDiscrete (n : ℕ)
  | gymnasiumBox (shape : List ℕ)
  | gymnasiumDict (spaces : List (String × PySpace))
  | gymnasiumOther
  | other
  deriving Repr

/-- Computes `np.prod` of a shape (the empty product is 1, as for `np.prod(())`). -/
def shapeProd (shape : List ℕ) : ℤ :=
  (shape.map (Int.ofNat)).prod

mutual
/-- Embedding of `Model._get_space_size(space, number_of_elements)`.
`Except.error` models the `ValueError` raised when the space is unsupported. -/
def getSpaceSize (space : PySpace) (number_of_elements : Bool) : Except String ℤ :=
  match space with
  | .ofInt n => .ok n
  | .ofShape shape => .ok (shapeProd shape)
  | .gymDiscrete n => .ok (if number_of_elements then (n : ℤ) else 1)
  | .gymBox shape => .ok (shapeProd shape)
  | .gymDict spaces =>
      match getSpaceSizeList spaces number_of_elements with
      | .ok sizes => .ok sizes.sum
      | .error e => .error e
  | .gymnasiumDiscrete n => .ok (if number_of_elements then (n : ℤ) else 1)
  | .gymnasiumBox shape => .ok (shapeProd shape)
  | .gymnasiumDict spaces =>
      match getSpaceSizeList spaces number_of_elements with
      | .ok sizes => .ok sizes.sum
      | .error e => .error e
  | .gymOther => .error "Space type not supported"
  | .gymnasiumOther => .error "Space type not supported"
  | .other => .error "Space type not supported"

/-- Resolution of each child of a Dict space, in order; the first failing
child propagates its error (as the raised `ValueError` would). -/
def getSpaceSizeList (spaces : List (String × PySpace)) (number_of_elements : Bool) :
    Except String (List ℤ) :=
  match spaces with
  | [] => .ok []
  | c :: rest =>
      match getSpaceSize c.2 number_of_elements with
      | .ok v =>
          match getSpaceSizeList rest number_of_elements with
          | .ok vs => .ok (v :: vs)
          | .error e => .error e
      | .error e => .error e
end

/-- A space variant is unsupported when it falls through every branch of the
resolver: an unrecognized gym/gymnasium subclass or a foreign type. -/
def PySpace.unsupported : PySpace → Bool
  | .gymOther => true
  | .gymnasiumOther => true
  | .other => true
  | _ => false

theorem getSpaceSizeList_map_ok (b : Bool) (spaces : List (String × PySpace)) (vs : List ℤ)
    (h : spaces.map (fun c => getSpaceSize c.2 b) = vs.map Except.ok) :
    getSpaceSizeList spaces b = .ok vs := by
  induction spaces generalizing vs with
  | nil =>
      cases vs with
      | nil => rfl
      | cons v vs => simp at h
  | cons c rest ih =>
      cases vs with
      | nil => simp at h
      | cons v vs =>
          simp only [List.map_cons, List.cons.injEq] at h
          rw [getSpaceSizeList, h.1, ih vs h.2]

/-- Claim C8: the space-size resolver is a deterministic (functional) resolution
satisfying: an integer scalar resolves to itself; a Dict space resolves to the
sum of the recursive resolutions of its children (same flag propagated, for
both the gym and gymnasium variants); a Discrete space with
`number_of_elements = false` resolves to 1 regardless of its cardinality; and
every unrecognized variant fails with the unsupported-space error. -/
theorem getSpaceSize_spec :
    (∀ n : ℤ, ∀ b : Bool, getSpaceSize (.ofInt n) b = .ok n) ∧
    (∀ (spaces : List (String × PySpace)) (vs : List ℤ) (b : Bool),
        spaces.map (fun c => getSpaceSize c.2 b) = vs.map Except.ok →
        getSpaceSize (.gymnasiumDict spaces) b = .ok vs.sum ∧
        getSpaceSize (.gymDict spaces) b = .ok vs.sum) ∧
    (∀ n : ℕ, getSpaceSize (.gymnasiumDiscrete n) false = .ok 1 ∧
        getSpaceSize (.gymDiscrete n) false = .ok 1) ∧
    (∀ s : PySpace, s.unsupported = true →
        getSpaceSize s true = .error "Space type not supported" ∧
        getSpaceSize s false = .error "Space type not supported") := by
  refine ⟨fun n b => rfl, ?_, fun n => ⟨rfl, rfl⟩, ?_⟩
  · intro spaces vs b h
    constructor
    · rw [getSpaceSize, getSpaceSizeList_map_ok b spaces vs h]
    · rw [getSpaceSize, getSpaceSizeList_map_ok b spaces vs h]
  · intro s hs
    cases s <;> first | exact ⟨rfl, rfl⟩ | exact Bool.noConfusion hs

/-- Witness for **C8** at concrete inputs: scalar 7 resolves to 7, the Dict
space {a: 2, b: Discrete 4, c: Box (2,3)} resolves to 2 + 4 + 6 = 12, a
Discrete space of cardinality 9 resolves to 1 when elements are not counted,
and a MultiDiscrete-like unrecognized gymnasium space fails. -/
theorem getSpaceSize_spec_witness :
    getSpaceSize (.ofInt 7) true = .ok 7 ∧
    getSpaceSize (.gymnasiumDict
      [("a", .ofInt 2), ("b", .gymnasiumDiscrete 4), ("c", .gymnasiumBox [2, 3])]) true =
      .ok 12 ∧
    getSpaceSize (.gymnasiumDiscrete 9) false = .ok 1 ∧
    getSpaceSize .gymnasiumOther true = .error "Space type not supported" := by
  refine ⟨getSpaceSize_spec.1 7 true, ?_, (getSpaceSize_spec.2.2.1 9).1,
    (getSpaceSize_spec.2.2.2 .gymnasiumOther (by decide)).1⟩
  have h := (getSpaceSize_spec.2.1
    [("a", .ofInt 2), ("b", .gymnasiumDiscrete 4), ("c", .gymnasiumBox [2, 3])]
    [2, 4, 6] true (by rfl)).1
  exact h

/-! ## Parameter trees and `Model.update_parameters` (skrl/models/jax/base.py)

A flax `FrozenDict` parameter tree: nested string-keyed dicts whose leaves are
1-D numeric arrays. Array elements use `ℚ` (exact arithmetic stands in for the
float arrays). -/

/-- A flax-style parameter pytree: leaves are 1-D arrays, inner nodes are
string-keyed (canonically ordered) dicts of subtrees. -/
inductive PTree where
  | leaf (xs : List ℚ)
  | node (children : List (String × PTree))
  deriving Repr

/-- Elementwise combination of two leaf arrays, with numpy 1-D broadcasting:
equal lengths combine pointwise, a singleton broadcasts against the other
array, and incompatible lengths raise (the shape-mismatch error). -/
def combineLeaf (f : ℚ → ℚ → ℚ) : List ℚ → List ℚ → Except String (List ℚ)
  | [x], ys => .ok (ys.map (f x))
  | xs, [y] => .ok (xs.map (fun x => f x y))
  | xs, ys =>
      if xs.length = ys.length then .ok (List.zipWith f xs ys)
      else .error "ParameterShapeMismatchError"

mutual
/-- Embedding of `jax.tree_util.tree_map(f, own, source)` over two trees: the
trees must have identical dict structure (same keys in order, leaves aligned
with leaves); any structural mismatch raises (modelled as `Except.error` with
the shape-mismatch error). -/
def treeMap2 (f : ℚ → ℚ → ℚ) : PTree → PTree → Except String PTree
  | .leaf xs, .leaf ys =>
      match combineLeaf f xs ys with
      | .ok zs => .ok (.leaf zs)
      | .error e => .error e
  | .node cs, .node ds =>
      match treeMap2List f cs ds with
      | .ok es => .ok (.node es)
      | .error e => .error e
  | _, _ => .error "ParameterShapeMismatchError"

/-- Runs `tree_map` over the children lists of two dict nodes: keys must agree
pairwise and the lists must have equal length. -/
def treeMap2List (f : ℚ → ℚ → ℚ) :
    List (String × PTree) → List (String × PTree) → Except String (List (String × PTree))
  | [], [] => .ok []
  | (k, t) :: cs, (k2, t2) :: ds =>
      if k = k2 then
        match treeMap2 f t t2 with
        | .ok u =>
            match treeMap2List f cs ds with
            | .ok us => .ok ((k, u) :: us)
            | .error e => .error e
        | .error e => .error e
      else .error "ParameterShapeMismatchError"
  | _, _ => .error "ParameterShapeMismatchError"
end

mutual
/-- Structural identity of two parameter trees: same dict paths and equal leaf
array lengths (the hypothesis under which a soft update is well defined). -/
def sameStruct : PTree → PTree → Bool
  | .leaf xs, .leaf ys => xs.length == ys.length
  | .node cs, .node ds => sameStructList cs ds
  | _, _ => false

/-- Extends `sameStruct` over children lists. -/
def sameStructList : List (String × PTree) → List (String × PTree) → Bool
  | [], [] => true
  | (k, t) :: cs, (k2, t2) :: ds => k == k2 && sameStruct t t2 && sameStructList cs ds
  | _, _ => false
end

mutual
/-- Path identity of two parameter trees: same dict structure (the "same
parameter paths" of the spec), with no constraint on leaf array lengths. -/
def samePaths : PTree → PTree → Bool
  | .leaf _, .leaf _ => true
  | .node cs, .node ds => samePathsList cs ds
  | _, _ => false

/-- Extends `samePaths` over children lists. -/
def samePathsList : List (String × PTree) → List (String × PTree) → Bool
  | [], [] => true
  | (k, t) :: cs, (k2, t2) :: ds => k == k2 && samePaths t t2 && samePathsList cs ds
  | _, _ => false
end

/-- Embedding of `Model.update_parameters(model, polyak)`: the hard-update
branch (`polyak == 1`) replaces the parameter tree wholesale by `source`'s;
otherwise the soft update combines the two trees with
`polyak * model_params + (1 - polyak) * params` per element. The new tree (or
the raised error, under which the instance's tree is untouched) is returned. -/
def update_parameters (own source : PTree) (polyak : ℚ) : Except String PTree :=
  if polyak = 1 then .ok source
  else treeMap2 (fun params model_params => polyak * model_params + (1 - polyak) * params)
    own source

/-- Child lookup by key in a dict node's children list. -/
def findChild (k : String) : List (String × PTree) → Option PTree
  | [] => none
  | (k2, t) :: rest => if k2 = k then some t else findChild k rest

/-- Descend through dict nodes along a key path. -/
def subtreeAt : PTree → List String → Option PTree
  | t, [] => some t
  | .leaf _, _ :: _ => none
  | .node cs, k :: ks =>
      match findChild k cs with
      | some t => subtreeAt t ks
      | none => none
termination_by _ path => path.length

/-- The `i`-th element of the leaf array at key path `path`, when it exists. -/
def leafAt (t : PTree) (path : List String) (i : ℕ) : Option ℚ :=
  match subtreeAt t path with
  | some (.leaf xs) => xs.get? i
  | _ => none

/-- Tree `t` combines `a` and `b` elementwise by `f`, parameter by parameter: at
every path and index populated in both `a` and `b`, `t` holds `f` of the two
values. -/
def PointwiseMap (f : ℚ → ℚ → ℚ) (a b t : PTree) : Prop :=
  ∀ path i x y, leafAt a path i = some x → leafAt b path i = some y →
    leafAt t path i = some (f x y)

theorem get?_zipWith_some (f : α → β → γ) (as : List α) (bs : List β) (i : ℕ) (x : α) (y : β)
    (ha : as.get? i = some x) (hb : bs.get? i = some y) :
    (List.zipWith f as bs).get? i = some (f x y) := by
  induction as generalizing bs i with
  | nil => simp at ha
  | cons a as ih =>
      cases bs with
      | nil => simp at hb
      | cons b bs =>
          cases i with
          | zero =>
              simp only [List.get?] at ha hb
              cases ha; cases hb; rfl
          | succ i =>
              simp only [List.get?] at ha hb ⊢
              exact ih bs i ha hb

theorem combineLeaf_eq_zipWith (f : ℚ → ℚ → ℚ) (xs ys : List ℚ)
    (h : xs.length = ys.length) :
    combineLeaf f xs ys = .ok (List.zipWith f xs ys) := by
  unfold combineLeaf
  split
  · rename_i x
    simp only [List.length_cons, List.length_nil] at h
    cases ys with
    | nil => simp at h
    | cons y ys =>
        cases ys with
        | nil => rfl
        | cons y2 ys => simp at h
  · rename_i y h1
    cases xs with
    | nil => simp at h
    | cons x xs' =>
        cases xs' with
        | nil => exact absurd rfl (h1 x)
        | cons x2 xs'' => simp at h
  · rw [if_pos h]

theorem leafAt_def (t : PTree) (path : List String) (i : ℕ) :
    leafAt t path i =
      match subtreeAt t path with
      | some (.leaf xs) => xs.get? i
      | _ => none := rfl

theorem leafAt_leaf_nil (xs : List ℚ) (i : ℕ) : leafAt (.leaf xs) [] i = xs.get? i := by
  rw [leafAt_def, subtreeAt]

theorem leafAt_leaf_cons (xs : List ℚ) (k : String) (ks : List String) (i : ℕ) :
    leafAt (.leaf xs) (k :: ks) i = none := by
  rw [leafAt_def, subtreeAt]

theorem leafAt_node_nil (cs : List (String × PTree)) (i : ℕ) :
    leafAt (.node cs) [] i = none := by
  rw [leafAt_def, subtreeAt]

theorem leafAt_node_cons (cs : List (String × PTree)) (k : String) (ks : List String) (i : ℕ) :
    leafAt (.node cs) (k :: ks) i =
      match findChild k cs with
      | some t => leafAt t ks i
      | none => none := by
  rw [leafAt_def, subtreeAt]
  cases findChild k cs with
  | none => rfl
  | some t => exact (leafAt_def t ks i).symm

theorem pointwiseMap_leaf (f : ℚ → ℚ → ℚ) (xs ys : List ℚ) :
    PointwiseMap f (.leaf xs) (.leaf ys) (.leaf (List.zipWith f xs ys)) := by
  intro path i x y hx hy
  cases path with
  | nil =>
      rw [leafAt_leaf_nil] at hx hy ⊢
      exact get?_zipWith_some f xs ys i x y hx hy
  | cons k ks => rw [leafAt_leaf_cons] at hx; cases hx

/-- The conclusion of `treeMap2List` on structurally identical children lists,
phrased through `findChild` so that it composes into `PointwiseMap` at nodes. -/
def ListMapOk (f : ℚ → ℚ → ℚ) (cs ds es : List (String × PTree)) : Prop :=
  ∀ k t1 t2, findChild k cs = some t1 → findChild k ds = some t2 →
    ∃ u, findChild k es = some u ∧ PointwiseMap f t1 t2 u

theorem treeMap2List_total (f : ℚ → ℚ → ℚ) (cs ds : List (String × PTree))
    (hrec : ∀ p ∈ cs, ∀ b, sameStruct p.2 b = true →
      ∃ t, treeMap2 f p.2 b = .ok t ∧ PointwiseMap f p.2 b t)
    (hss : sameStructList cs ds = true) :
    ∃ es, treeMap2List f cs ds = .ok es ∧ ListMapOk f cs ds es := by
  induction cs generalizing ds with
  | nil =>
      cases ds with
      | nil => exact ⟨[], by simp [treeMap2List], fun k t1 t2 h1 => by simp [findChild] at h1⟩
      | cons d ds => simp [sameStructList] at hss
  | cons c cs ih =>
      cases ds with
      | nil => obtain ⟨k, t⟩ := c; simp [sameStructList] at hss
      | cons d ds =>
          obtain ⟨k, t⟩ := c
          obtain ⟨k2, t2⟩ := d
          simp only [sameStructList, Bool.and_eq_true, beq_iff_eq] at hss
          obtain ⟨⟨hk, hst⟩, htail⟩ := hss
          obtain ⟨u, hu, hpu⟩ := hrec (k, t) (List.mem_cons_self _ _) t2 hst
          simp only at hu hpu
          obtain ⟨us, hus, hend⟩ := ih ds (fun p hp => hrec p (List.mem_cons_of_mem _ hp)) htail
          refine ⟨(k, u) :: us, ?_, ?_⟩
          · simp only [treeMap2List]
            rw [if_pos hk, hu, hus]
          · intro k' t1' t2' h1 h2
            rw [findChild] at h1 h2 ⊢
            subst hk
            by_cases hkk : k = k'
            · rw [if_pos hkk] at h1 h2 ⊢
              cases h1; cases h2
              exact ⟨u, rfl, hpu⟩
            · rw [if_neg hkk] at h1 h2 ⊢
              exact hend k' t1' t2' h1 h2

theorem treeMap2_total (f : ℚ → ℚ → ℚ) :
    ∀ a b : PTree, sameStruct a b = true →
      ∃ t, treeMap2 f a b = .ok t ∧ PointwiseMap f a b t
  | .leaf xs, .leaf ys, h => by
      simp only [sameStruct, beq_iff_eq] at h
      refine ⟨.leaf (List.zipWith f xs ys), ?_, pointwiseMap_leaf f xs ys⟩
      simp only [treeMap2]
      rw [combineLeaf_eq_zipWith f xs ys h]
  | .leaf xs, .node ds, h => by simp [sameStruct] at h
  | .node cs, .leaf ys, h => by simp [sameStruct] at h
  | .node cs, .node ds, h => by
      simp only [sameStruct] at h
      obtain ⟨es, hes, hend⟩ := treeMap2List_total f cs ds
        (fun p hp b hb => treeMap2_total f p.2 b hb) h
      refine ⟨.node es, by simp only [treeMap2]; rw [hes], ?_⟩
      intro path i x y hx hy
      cases path with
      | nil => rw [leafAt_node_nil] at hx; cases hx
      | cons k ks =>
          rw [leafAt_node_cons] at hx hy ⊢
          cases h1 : findChild k cs with
          | none => rw [h1] at hx; cases hx
          | some t1 =>
              rw [h1] at hx
              cases h2 : findChild k ds with
              | none => rw [h2] at hy; cases hy
              | some t2 =>
                  rw [h2] at hy
                  obtain ⟨u, hu, hpu⟩ := hend k t1 t2 h1 h2
                  rw [hu]
                  exact hpu ks i x y hx hy
termination_by a => sizeOf a
decreasing_by
  obtain ⟨pk, pt⟩ := p
  have h1 := List.sizeOf_lt_of_mem hp
  simp only [Prod.mk.sizeOf_spec] at h1
  simp only [PTree.node.sizeOf_spec]
  omega

theorem zipWith_left_of_length_eq (f : ℚ → ℚ → ℚ) (hf : ∀ x y, f x y = x) :
    ∀ (xs ys : List ℚ), xs.length = ys.length → List.zipWith f xs ys = xs := by
  intro xs
  induction xs with
  | nil => intro ys h; rfl
  | cons x xs ih =>
      intro ys h
      cases ys with
      | nil => simp at h
      | cons y ys =>
          simp only [List.length_cons, Nat.add_right_cancel_iff] at h
          simp only [List.zipWith_cons_cons, hf, ih ys h]

theorem treeMap2List_self (f : ℚ → ℚ → ℚ) (cs ds : List (String × PTree))
    (hrec : ∀ p ∈ cs, ∀ b, sameStruct p.2 b = true → treeMap2 f p.2 b = .ok p.2)
    (hss : sameStructList cs ds = true) :
    treeMap2List f cs ds = .ok cs := by
  induction cs generalizing ds with
  | nil =>
      cases ds with
      | nil => simp [treeMap2List]
      | cons d ds => simp [sameStructList] at hss
  | cons c cs ih =>
      cases ds with
      | nil => obtain ⟨k, t⟩ := c; simp [sameStructList] at hss
      | cons d ds =>
          obtain ⟨k, t⟩ := c
          obtain ⟨k2, t2⟩ := d
          simp only [sameStructList, Bool.and_eq_true, beq_iff_eq] at hss
          obtain ⟨⟨hk, hst⟩, htail⟩ := hss
          have hu := hrec (k, t) (List.mem_cons_self _ _) t2 hst
          simp only at hu
          have hus := ih ds (fun p hp => hrec p (List.mem_cons_of_mem _ hp)) htail
          simp only [treeMap2List]
          rw [if_pos hk, hu, hus]

theorem treeMap2_self (f : ℚ → ℚ → ℚ) (hf : ∀ x y, f x y = x) :
    ∀ a b : PTree, sameStruct a b = true → treeMap2 f a b = .ok a
  | .leaf xs, .leaf ys, h => by
      simp only [sameStruct, beq_iff_eq] at h
      simp only [treeMap2]
      rw [combineLeaf_eq_zipWith f xs ys h, zipWith_left_of_length_eq f hf xs ys h]
  | .leaf xs, .node ds, h => by simp [sameStruct] at h
  | .node cs, .leaf ys, h => by simp [sameStruct] at h
  | .node cs, .node ds, h => by
      simp only [sameStruct] at h
      have hes := treeMap2List_self f cs ds
        (fun p hp b hb => treeMap2_self f hf p.2 b hb) h
      simp only [treeMap2]
      rw [hes]
termination_by a => sizeOf a
decreasing_by
  obtain ⟨pk, pt⟩ := p
  have h1 := List.sizeOf_lt_of_mem hp
  simp only [Prod.mk.sizeOf_spec] at h1
  simp only [PTree.node.sizeOf_spec]
  omega

theorem combineLeaf_ok_or_error (f : ℚ → ℚ → ℚ) (xs ys : List ℚ) :
    (∃ zs, combineLeaf f xs ys = .ok zs) ∨
      combineLeaf f xs ys = .error "ParameterShapeMismatchError" := by
  unfold combineLeaf
  split
  · exact .inl ⟨_, rfl⟩
  · exact .inl ⟨_, rfl⟩
  · split
    · exact .inl ⟨_, rfl⟩
    · exact .inr rfl

theorem treeMap2List_ok_or_error (f : ℚ → ℚ → ℚ) (cs ds : List (String × PTree))
    (hrec : ∀ p ∈ cs, ∀ b,
      (∃ t, treeMap2 f p.2 b = .ok t) ∨ treeMap2 f p.2 b = .error "ParameterShapeMismatchError") :
    (∃ es, treeMap2List f cs ds = .ok es) ∨
      treeMap2List f cs ds = .error "ParameterShapeMismatchError" := by
  induction cs generalizing ds with
  | nil =>
      cases ds with
      | nil => exact .inl ⟨[], by simp [treeMap2List]⟩
      | cons d ds => obtain ⟨k2, t2⟩ := d; exact .inr (by simp [treeMap2List])
  | cons c cs ih =>
      obtain ⟨k, t⟩ := c
      cases ds with
      | nil => exact .inr (by simp [treeMap2List])
      | cons d ds =>
          obtain ⟨k2, t2⟩ := d
          simp only [treeMap2List]
          by_cases hk : k = k2
          · rw [if_pos hk]
            rcases hrec (k, t) (List.mem_cons_self _ _) t2 with ⟨u, hu⟩ | hu <;>
              simp only at hu <;> rw [hu]
            · rcases ih ds (fun p hp => hrec p (List.mem_cons_of_mem _ hp)) with ⟨us, hus⟩ | hus <;>
                rw [hus]
              · exact .inl ⟨_, rfl⟩
              · exact .inr rfl
            · exact .inr rfl
          · rw [if_neg hk]
            exact .inr rfl

theorem treeMap2_ok_or_error (f : ℚ → ℚ → ℚ) :
    ∀ a b : PTree,
      (∃ t, treeMap2 f a b = .ok t) ∨ treeMap2 f a b = .error "ParameterShapeMismatchError"
  | .leaf xs, .leaf ys => by
      simp only [treeMap2]
      rcases combineLeaf_ok_or_error f xs ys with ⟨zs, hz⟩ | hz <;> rw [hz]
      · exact .inl ⟨_, rfl⟩
      · exact .inr rfl
  | .leaf xs, .node ds => .inr (by simp [treeMap2])
  | .node cs, .leaf ys => .inr (by simp [treeMap2])
  | .node cs, .node ds => by
      simp only [treeMap2]
      rcases treeMap2List_ok_or_error f cs ds
        (fun p hp b => treeMap2_ok_or_error f p.2 b) with ⟨es, hes⟩ | hes <;> rw [hes]
      · exact .inl ⟨_, rfl⟩
      · exact .inr rfl
termination_by a => sizeOf a
decreasing_by
  obtain ⟨pk, pt⟩ := p
  have h1 := List.sizeOf_lt_of_mem hp
  simp only [Prod.mk.sizeOf_spec] at h1
  simp only [PTree.node.sizeOf_spec]
  omega

theorem samePathsList_false_error (f : ℚ → ℚ → ℚ) (cs ds : List (String × PTree))
    (hrec : ∀ p ∈ cs, ∀ b, samePaths p.2 b = false →
      treeMap2 f p.2 b = .error "ParameterShapeMismatchError")
    (h : samePathsList cs ds = false) :
    treeMap2List f cs ds = .error "ParameterShapeMismatchError" := by
  induction cs generalizing ds with
  | nil =>
      cases ds with
      | nil => simp [samePathsList] at h
      | cons d ds => obtain ⟨k2, t2⟩ := d; simp [treeMap2List]
  | cons c cs ih =>
      obtain ⟨k, t⟩ := c
      cases ds with
      | nil => simp [treeMap2List]
      | cons d ds =>
          obtain ⟨k2, t2⟩ := d
          simp only [samePathsList, Bool.and_eq_false_iff, beq_eq_false_iff_ne] at h
          simp only [treeMap2List]
          by_cases hk : k = k2
          · rw [if_pos hk]
            rcases h with (hk2 | hp) | htail
            · exact absurd hk hk2
            · rw [hrec (k, t) (List.mem_cons_self _ _) t2 hp]
            · rcases treeMap2_ok_or_error f t t2 with ⟨u, hu⟩ | hu
              · rw [hu, ih ds (fun p hp => hrec p (List.mem_cons_of_mem _ hp)) htail]
              · rw [hu]
          · rw [if_neg hk]

theorem samePaths_false_error (f : ℚ → ℚ → ℚ) :
    ∀ a b : PTree, samePaths a b = false →
      treeMap2 f a b = .error "ParameterShapeMismatchError"
  | .leaf xs, .leaf ys, h => by simp [samePaths] at h
  | .leaf xs, .node ds, h => by simp [treeMap2]
  | .node cs, .leaf ys, h => by simp [treeMap2]
  | .node cs, .node ds, h => by
      simp only [samePaths] at h
      simp only [treeMap2]
      rw [samePathsList_false_error f cs ds
        (fun p hp b hb => samePaths_false_error f p.2 b hb) h]
termination_by a => sizeOf a
decreasing_by
  obtain ⟨pk, pt⟩ := p
  have h1 := List.sizeOf_lt_of_mem hp
  simp only [Prod.mk.sizeOf_spec] at h1
  simp only [PTree.node.sizeOf_spec]
  omega

/-- Claim C6: for identically structured parameter trees,
`update_parameters(source, polyak=1.0)` installs `source`'s tree by the
short-circuited direct replacement, giving exact equality with `source`'s
parameters; `polyak=0.0` leaves the instance's parameters unchanged; and for
any `polyak`, the update succeeds and each parameter (every path and array
index) becomes `polyak * source_param + (1 - polyak) * own_param`. -/
theorem update_parameters_polyak_spec (own source : PTree) (polyak : ℚ)
    (h : sameStruct own source = true) :
    update_parameters own source 1 = .ok source ∧
    update_parameters own source 0 = .ok own ∧
    ∃ t, update_parameters own source polyak = .ok t ∧
      PointwiseMap (fun params model_params =>
        polyak * model_params + (1 - polyak) * params) own source t := by
  refine ⟨by simp [update_parameters], ?_, ?_⟩
  · rw [update_parameters, if_neg (by norm_num)]
    exact treeMap2_self _ (fun x y => by ring) own source h
  · by_cases hp : polyak = 1
    · subst hp
      refine ⟨source, by simp [update_parameters], ?_⟩
      intro path i x y hx hy
      rw [hy]
      norm_num
    · rw [update_parameters, if_neg hp]
      exact treeMap2_total _ own source h

/-- Witness for **C6** at a concrete pair of two-leaf trees and
`polyak = 1/2`: the hard update returns the source tree, `polyak = 0` returns
the original tree, and the soft update interpolates per parameter. -/
theorem update_parameters_polyak_spec_witness :
    update_parameters (PTree.node [("w", .leaf [1, 2]), ("b", .leaf [3])])
        (PTree.node [("w", .leaf [5, 6]), ("b", .leaf [7])]) 1 =
      .ok (PTree.node [("w", .leaf [5, 6]), ("b", .leaf [7])]) ∧
    update_parameters (PTree.node [("w", .leaf [1, 2]), ("b", .leaf [3])])
        (PTree.node [("w", .leaf [5, 6]), ("b", .leaf [7])]) 0 =
      .ok (PTree.node [("w", .leaf [1, 2]), ("b", .leaf [3])]) ∧
    ∃ t, update_parameters (PTree.node [("w", .leaf [1, 2]), ("b", .leaf [3])])
        (PTree.node [("w", .leaf [5, 6]), ("b", .leaf [7])]) (1/2) = .ok t ∧
      PointwiseMap (fun params model_params =>
        (1/2 : ℚ) * model_params + (1 - 1/2) * params)
        (PTree.node [("w", .leaf [1, 2]), ("b", .leaf [3])])
        (PTree.node [("w", .leaf [5, 6]), ("b", .leaf [7])]) t :=
  update_parameters_polyak_spec
    (PTree.node [("w", .leaf [1, 2]), ("b", .leaf [3])])
    (PTree.node [("w", .leaf [5, 6]), ("b", .leaf [7])]) (1/2)
    (by simp [sameStruct, sameStructList])

/-- Counterexample to **C7** as stated: with the default `polyak = 1`, a
source tree whose parameter paths differ from the instance's (a dict node
versus a bare leaf) does NOT fail — the hard-update branch replaces the whole
tree without any structural check. -/
theorem update_parameters_mismatch_refuted :
    samePaths (PTree.leaf [1]) (PTree.node []) = false ∧
    update_parameters (PTree.leaf [1]) (PTree.node []) 1 = .ok (PTree.node []) :=
  ⟨by simp [samePaths], by simp [update_parameters]⟩

/-- Claim C7 (amended): for every soft update (`polyak ≠ 1`), a source tree that
does not have the same parameter paths as the instance's tree fails with the
parameter-shape-mismatch error, and no partial or misaligned update takes
place (no new tree is produced); the hard-update branch `polyak = 1` performs
a wholesale replacement with no structural check. -/
theorem update_parameters_path_mismatch (own source : PTree) (polyak : ℚ)
    (hp : polyak ≠ 1) (h : samePaths own source = false) :
    update_parameters own source polyak = .error "ParameterShapeMismatchError" := by
  rw [update_parameters, if_neg hp]
  exact samePaths_false_error _ own source h

/-- Witness for **C7** (amended) at `polyak = 0` on a leaf-versus-node
mismatch. -/
theorem update_parameters_path_mismatch_witness :
    update_parameters (PTree.leaf [1]) (PTree.node []) 0 =
      .error "ParameterShapeMismatchError" :=
  update_parameters_path_mismatch (PTree.leaf [1]) (PTree.node []) 0
    (by norm_num) (by simp [samePaths])

/-! ## Stable inverse tanh (`GaussianMixin.atanh` / `inverse_tanh`,
skrl/models/torch/gaussian.py) -/

/-- Embeds `GaussianMixin.atanh`: `0.5 * (x.log1p() - (-x).log1p())`, with
`log1p t = log (1 + t)`. -/
noncomputable def atanh (x : ℝ) : ℝ := 0.5 * (Real.log (1 + x) - Real.log (1 + -x))

/-- Embeds `GaussianMixin.inverse_tanh`: clamp the input into
`[-1 + eps, 1 - eps]` (machine epsilon of the element dtype) and apply the
log1p-based `atanh`. `torch.clamp(y, min=a, max=b) = min(max(y, a), b)`. -/
noncomputable def inverse_tanh (eps y : ℝ) : ℝ := atanh (min (max y (-1 + eps)) (1 - eps))

/-- The value `torch.finfo(torch.float32).eps = 2^-23`, the machine epsilon of the
float32 tensors built by the mixin. -/
noncomputable def machineEps : ℝ := 1 / 8388608

theorem machineEps_pos : 0 < machineEps := by norm_num [machineEps]

theorem machineEps_le_one : machineEps ≤ 1 := by norm_num [machineEps]

theorem tanh_lt_one (x : ℝ) : Real.tanh x < 1 := by
  rw [Real.tanh_eq_sinh_div_cosh, div_lt_one (Real.cosh_pos x)]
  exact Real.sinh_lt_cosh x

theorem neg_one_lt_tanh (x : ℝ) : -1 < Real.tanh x := by
  rw [Real.tanh_eq_sinh_div_cosh, lt_div_iff₀ (Real.cosh_pos x)]
  nlinarith [Real.cosh_add_sinh x, Real.exp_pos x]

theorem tanh_le_tanh (x y : ℝ) (h : x ≤ y) : Real.tanh x ≤ Real.tanh y := by
  rw [Real.tanh_eq_sinh_div_cosh, Real.tanh_eq_sinh_div_cosh,
    div_le_div_iff₀ (Real.cosh_pos x) (Real.cosh_pos y)]
  have hs : 0 ≤ Real.sinh (y - x) := Real.sinh_nonneg_iff.mpr (by linarith)
  have hsub := Real.sinh_sub y x
  nlinarith [hs, hsub]

theorem atanh_tanh (x : ℝ) : atanh (Real.tanh x) = x := by
  have hc := Real.cosh_pos x
  have h1 : 1 + Real.tanh x = Real.exp x / Real.cosh x := by
    rw [Real.tanh_eq_sinh_div_cosh]
    field_simp
    try linarith [Real.cosh_add_sinh x]
  have h2 : 1 + -Real.tanh x = Real.exp (-x) / Real.cosh x := by
    rw [Real.tanh_eq_sinh_div_cosh]
    field_simp
    try linarith [Real.cosh_sub_sinh x]
  rw [atanh, h1, h2,
    Real.log_div (Real.exp_ne_zero x) (ne_of_gt hc),
    Real.log_div (Real.exp_ne_zero (-x)) (ne_of_gt hc),
    Real.log_exp, Real.log_exp]
  ring

theorem exp_six_lt : Real.exp 6 < 16777215 := by
  have h1 : Real.exp 6 = Real.exp 1 ^ 6 := by
    rw [← Real.exp_nat_mul]; norm_num
  rw [h1]
  calc Real.exp 1 ^ 6 ≤ 2.7182818286 ^ 6 :=
        pow_le_pow_left₀ (Real.exp_pos 1).le Real.exp_one_lt_d9.le 6
    _ < 16777215 := by norm_num

/-- The float32 machine epsilon is far below the clamp slack `1 - tanh 3`
needed for the round-trip law on `(-3, 3)`. -/
theorem machineEps_le : machineEps ≤ 1 - Real.tanh 3 := by
  have hc := Real.cosh_pos 3
  have hE := Real.exp_pos 3
  have h1 : 1 - Real.tanh 3 = Real.exp (-3) / Real.cosh 3 := by
    rw [Real.tanh_eq_sinh_div_cosh]
    field_simp
    try linarith [Real.cosh_sub_sinh 3]
  rw [h1, le_div_iff₀ hc, machineEps, Real.cosh_eq, Real.exp_neg]
  have hsq : Real.exp 3 * Real.exp 3 < 16777215 := by
    rw [← Real.exp_add]
    have h33 : (3 : ℝ) + 3 = 6 := by norm_num
    rw [h33]
    exact exp_six_lt
  have hinv : 0 < (Real.exp 3)⁻¹ := inv_pos.mpr hE
  have hmul : Real.exp 3 * (Real.exp 3)⁻¹ = 1 := mul_inv_cancel₀ (ne_of_gt hE)
  have hkey : Real.exp 3 ≤ 16777215 * (Real.exp 3)⁻¹ :=
    calc Real.exp 3 = Real.exp 3 * Real.exp 3 * (Real.exp 3)⁻¹ := by
          rw [mul_assoc, hmul, mul_one]
      _ ≤ 16777215 * (Real.exp 3)⁻¹ :=
          mul_le_mul_of_nonneg_right hsq.le hinv.le
  linarith

theorem inverse_tanh_tanh (x eps : ℝ) (h1 : -3 < x) (h2 : x < 3) (h3 : 0 < eps)
    (h4 : eps ≤ 1 - Real.tanh 3) : inverse_tanh eps (Real.tanh x) = x := by
  have hub : Real.tanh x ≤ 1 - eps := by
    have := tanh_le_tanh x 3 h2.le
    linarith
  have hlb : -1 + eps ≤ Real.tanh x := by
    have hm := tanh_le_tanh (-3) x h1.le
    rw [Real.tanh_neg] at hm
    linarith
  rw [inverse_tanh, max_eq_left hlb, min_eq_left hub]
  exact atanh_tanh x

theorem inverse_tanh_bounded (y eps : ℝ) (h1 : -1 ≤ y) (h2 : y ≤ 1) (h3 : 0 < eps)
    (h4 : eps ≤ 1) :
    ∃ c, inverse_tanh eps y = 0.5 * (Real.log (1 + c) - Real.log (1 + -c)) ∧
      0 < 1 + c ∧ 0 < 1 - c := by
  refine ⟨min (max y (-1 + eps)) (1 - eps), rfl, ?_, ?_⟩
  · have hA : -1 + eps ≤ max y (-1 + eps) := le_max_right y (-1 + eps)
    have hB : (-1 : ℝ) < 1 - eps := by linarith
    have := lt_min (show (-1 : ℝ) < max y (-1 + eps) by linarith) hB
    linarith
  · have := min_le_right (max y (-1 + eps)) (1 - eps)
    linarith

/-- Claim C4: the code's `atanh` inverts `tanh` exactly on `(-3, 3)` (hence
within any floating tolerance) whenever the clamping epsilon leaves the
clamp inactive there (which the float32 machine epsilon does, by
`machineEps_le`); and for every input in `[-1, 1]` including the boundary,
`inverse_tanh` evaluates the log1p-based formula on a clamped value `c` that
stays strictly inside `(-1, 1)`, so both log arguments are strictly positive
and no infinite or NaN output can arise. -/
theorem inverse_tanh_spec :
    (∀ x eps : ℝ, -3 < x → x < 3 → 0 < eps → eps ≤ 1 - Real.tanh 3 →
      inverse_tanh eps (Real.tanh x) = x) ∧
    (∀ y eps : ℝ, -1 ≤ y → y ≤ 1 → 0 < eps → eps ≤ 1 →
      ∃ c, inverse_tanh eps y = 0.5 * (Real.log (1 + c) - Real.log (1 + -c)) ∧
        0 < 1 + c ∧ 0 < 1 - c) :=
  ⟨inverse_tanh_tanh, inverse_tanh_bounded⟩

/-- Witness for **C4** at `x = 1` and at the boundary input `y = 1`, with the
concrete float32 machine epsilon. -/
theorem inverse_tanh_spec_witness :
    inverse_tanh machineEps (Real.tanh 1) = 1 ∧
    ∃ c, inverse_tanh machineEps 1 = 0.5 * (Real.log (1 + c) - Real.log (1 + -c)) ∧
      0 < 1 + c ∧ 0 < 1 - c :=
  ⟨inverse_tanh_spec.1 1 machineEps (by norm_num) (by norm_num) machineEps_pos machineEps_le,
   inverse_tanh_spec.2 1 machineEps (by norm_num) le_rfl machineEps_pos machineEps_le_one⟩

/-! ## The `GaussianMixin.act` pipeline (skrl/models/torch/gaussian.py)

Tensors are batches of action rows, `List (List F)`, with `F := Option ℝ`:
`some x` a finite float (idealized as a real), `none` a NaN. Elementwise ops
propagate NaN as IEEE arithmetic does. -/

/-- A float scalar: `some x` finite, `none` NaN. -/
abbrev F := Option ℝ

/-- Lift a unary real function elementwise (NaN in, NaN out). -/
def fU (f : ℝ → ℝ) : F → F := Option.map f

/-- Lift a binary real function (NaN absorbs). -/
def fB (f : ℝ → ℝ → ℝ) : F → F → F
  | some x, some y => some (f x y)
  | _, _ => none

/-- Lift a ternary real function (NaN absorbs). -/
def fT (f : ℝ → ℝ → ℝ → ℝ) : F → F → F → F
  | some x, some y, some z => some (f x y z)
  | _, _, _ => none

/-- A rank-2 tensor of shape (batch, actions). -/
abbrev Mat := List (List F)

/-- A `zipWith` over three lists (stops at the shortest). -/
def zipWith3 (f : α → β → γ → δ) : List α → List β → List γ → List δ
  | a :: as, b :: bs, c :: cs => f a b c :: zipWith3 f as bs cs
  | _, _, _ => []

/-- Elementwise unary op on a matrix. -/
def mU (f : F → F) (m : Mat) : Mat := m.map (List.map f)

/-- Elementwise binary op on two matrices of equal shape. -/
def mB (f : F → F → F) (a b : Mat) : Mat := List.zipWith (List.zipWith f) a b

/-- Elementwise ternary op on three matrices of equal shape. -/
def mT (f : F → F → F → F) (a b c : Mat) : Mat := zipWith3 (zipWith3 f) a b c

/-- Row-wise op against two per-dimension bound vectors (the broadcasting of
a `(B, D)` tensor against two size-`D` tensors). -/
def rowZip2 (g : F → ℝ → ℝ → F) (m : Mat) (lo hi : List ℝ) : Mat :=
  m.map (fun r => zipWith3 g r lo hi)

/-- The three rank-collapsing torch reductions (`torch.mean/sum/prod`). -/
inductive RedOp where
  | rmean
  | rsum
  | rprod
  deriving Repr, DecidableEq

/-- Computes `torch.sum` of a row (NaN absorbs, empty sum is 0). -/
def fsum (r : List F) : F := r.foldr (fB (· + ·)) (some 0)

/-- Computes `torch.prod` of a row (NaN absorbs, empty product is 1). -/
def fprod (r : List F) : F := r.foldr (fB (· * ·)) (some 1)

/-- Computes `torch.mean` of a row. -/
noncomputable def fmean (r : List F) : F := fU (fun s => s / r.length) (fsum r)

/-- Apply a reduction to one row. -/
noncomputable def rowReduce : RedOp → List F → F
  | .rmean => fmean
  | .rsum => fsum
  | .rprod => fprod

/-- Tensors of rank 0..3, enough for `act` on batched rank-2 inputs (one
reduction and one unsqueeze never leave this range). -/
inductive Tensor where
  | t0 (x : F)
  | t1 (d : List F)
  | t2 (d : Mat)
  | t3 (d : List Mat)

/-- The tensor rank, `Tensor.dim()`. -/
def Tensor.dim : Tensor → ℕ
  | .t0 _ => 0
  | .t1 _ => 1
  | .t2 _ => 2
  | .t3 _ => 3

/-- A torch reduction with `dim=-1`: collapse the last axis. -/
noncomputable def reduceLast (op : RedOp) : Tensor → Tensor
  | .t0 x => .t0 x
  | .t1 d => .t0 (rowReduce op d)
  | .t2 d => .t1 (d.map (rowReduce op))
  | .t3 d => .t2 (d.map (fun m => m.map (rowReduce op)))

/-- Embeds `torch.unsqueeze(-1)`: append a size-1 trailing axis (rank capped at 3;
`act` only ever unsqueezes rank 0 or 1 values here). -/
def Tensor.unsqueezeLast : Tensor → Tensor
  | .t0 x => .t1 [x]
  | .t1 d => .t2 (d.map (fun x => [x]))
  | .t2 d => .t3 (d.map (fun r => r.map (fun x => [x])))
  | .t3 d => .t3 d

/-- The attributes of a constructed `GaussianMixin` read by `act`:
`_g_clip_actions`, `_g_clip_log_std`, `_g_log_std_min`, `_g_log_std_max`,
`_g_reduction` (`None` encodes reduction "none"), `_g_clip_actions_min`,
`_g_clip_actions_max`. -/
structure GaussCfg where
  clip_actions : Bool
  clip_log_std : Bool
  log_std_min : ℝ
  log_std_max : ℝ
  reduction : Option RedOp
  clip_actions_min : List ℝ
  clip_actions_max : List ℝ

/-- The module constant `EPS = 1e-6` of gaussian.py. -/
noncomputable def EPS : ℝ := 1 / 1000000

/-- Step: `torch.clamp(log_std, min_log_std, max_log_std)` when
`_g_clip_log_std` is set. -/
noncomputable def clampedLogStd (cfg : GaussCfg) (log_std : Mat) : Mat :=
  if cfg.clip_log_std then
    mU (fU (fun v => min (max v cfg.log_std_min) cfg.log_std_max)) log_std
  else log_std

/-- Step: the distribution location — `tanh(mean_actions)` when actions are
clipped, else `mean_actions` unchanged. -/
noncomputable def distLoc (cfg : GaussCfg) (mean_actions : Mat) : Mat :=
  if cfg.clip_actions then mU (fU Real.tanh) mean_actions else mean_actions

/-- Step: the distribution scale `log_std.exp()` (after optional clamping). -/
noncomputable def distScale (cfg : GaussCfg) (log_std : Mat) : Mat :=
  mU (fU Real.exp) (clampedLogStd cfg log_std)

/-- Step: the reparameterization-trick sample
`loc + scale * noise` (`Normal.rsample` with the given standard-normal
noise). -/
noncomputable def rsample (cfg : GaussCfg) (mean_actions log_std noise : Mat) : Mat :=
  mB (fB (· + ·)) (distLoc cfg mean_actions)
    (mB (fB (· * ·)) (distScale cfg log_std) noise)

/-- Embeds `torch.distributions.Normal(loc, scale).log_prob(value)`:
`-((value - loc)^2) / (2 * scale^2) - log(scale) - log(sqrt(2 * pi))`. -/
noncomputable def normalLogProb (loc scale value : ℝ) : ℝ :=
  -((value - loc) ^ 2) / (2 * scale ^ 2) - Real.log scale -
    Real.log (Real.sqrt (2 * Real.pi))

/-- Elementwise Gaussian log-density of a value tensor. -/
noncomputable def distLogProb (loc scale value : Mat) : Mat :=
  mT (fT normalLogProb) loc scale value

/-- Step: linear rescale of environment-scaled actions from `[low, high]`
to `[-1, 1]`: `((scaled - min) / (max - min)) * 2.0 - 1.0`. -/
noncomputable def unscaleActions (lo hi : List ℝ) (scaled : Mat) : Mat :=
  rowZip2 (fun a l h => fU (fun v => (v - l) / (h - l) * 2 - 1) a) scaled lo hi

/-- Step: the replay-case log-probability of previously taken actions:
Gaussian log-density at `inverse_tanh(unscaled)` minus the tanh-Jacobian
correction `log(1 - unscaled^2 + EPS)`. -/
noncomputable def takenLogProb (cfg : GaussCfg) (mean_actions log_std taken : Mat) : Mat :=
  let unscaled := unscaleActions cfg.clip_actions_min cfg.clip_actions_max taken
  let gaussian_actions := mU (fU (inverse_tanh machineEps)) unscaled
  mB (fB (· - ·))
    (distLogProb (distLoc cfg mean_actions) (distScale cfg log_std) gaussian_actions)
    (mU (fU (fun u => Real.log (1 - u * u + EPS))) unscaled)

/-- Step: squash the sample and map into the action bounds:
`((tanh(actions) + 1) / 2.0) * (max - min) + min`. -/
noncomputable def scaleActions (lo hi : List ℝ) (a : Mat) : Mat :=
  rowZip2 (fun x l h => fU (fun v => (Real.tanh v + 1) / 2 * (h - l) + l) x) a lo hi

/-- Step: the same linear rescale applied to the (already tanh'd) mean:
`((mean_actions + 1) / 2.0) * (max - min) + min`. -/
noncomputable def scaleMeanActions (lo hi : List ℝ) (m : Mat) : Mat :=
  rowZip2 (fun x l h => fU (fun v => (v + 1) / 2 * (h - l) + l) x) m lo hi

/-- The actions tensor returned by `act` (the sample, bound-rescaled when
clipping is enabled). -/
noncomputable def producedActions (cfg : GaussCfg) (mean_actions log_std noise : Mat) : Mat :=
  let actions := rsample cfg mean_actions log_std noise
  if cfg.clip_actions then
    scaleActions cfg.clip_actions_min cfg.clip_actions_max actions
  else actions

/-- The pre-reduction log-probability tensor computed by `act`: in the clip
branch, the replay formula when `taken_actions` is present, else the density
of the fresh sample; in the no-clip branch, the density of `taken_actions`
when present else of the fresh sample. -/
noncomputable def actLogProb (cfg : GaussCfg) (mean_actions log_std noise : Mat)
    (taken_actions : Option Mat) : Mat :=
  let loc := distLoc cfg mean_actions
  let scale := distScale cfg log_std
  if cfg.clip_actions then
    match taken_actions with
    | some scaled_actions => takenLogProb cfg mean_actions log_std scaled_actions
    | none => distLogProb loc scale (rsample cfg mean_actions log_std noise)
  else
    distLogProb loc scale (taken_actions.getD (rsample cfg mean_actions log_std noise))

/-- The reduction / rank-fixup applied to the log-probability: reduce along
the last axis unless the stored reduction is `None`, then unsqueeze a
trailing axis when the rank no longer matches the actions' rank. -/
noncomputable def reducedLogProb (cfg : GaussCfg) (lp : Mat) (actionsDim : ℕ) : Tensor :=
  let lp1 := match cfg.reduction with
    | some op => reduceLast op (.t2 lp)
    | none => .t2 lp
  if lp1.dim ≠ actionsDim then lp1.unsqueezeLast else lp1

/-- The `outputs["mean_actions"]` value: in the clip branch the tanh'd mean
rescaled into bounds, else the raw mean. -/
noncomputable def meanActionsOut (cfg : GaussCfg) (mean_actions : Mat) : Mat :=
  if cfg.clip_actions then
    scaleMeanActions cfg.clip_actions_min cfg.clip_actions_max (distLoc cfg mean_actions)
  else distLoc cfg mean_actions

/-- Computes `torch.isnan` of one element. -/
def isNaN : F → Bool
  | none => true
  | some _ => false

/-- Computes `torch.isnan(actions).any()`. -/
def anyNaN (m : Mat) : Bool := m.any (fun r => r.any isNaN)

/-- Embedding of `GaussianMixin.act` on a rank-2 batch: compute the sample,
the (reduced) log-probability and the mean-actions output, then raise
(`Except.error`, the `ValueError` / NumericalInstabilityError) when any
produced action is NaN, else return the triple
`(actions, log_prob, outputs["mean_actions"])`. -/
noncomputable def act (cfg : GaussCfg) (mean_actions log_std noise : Mat)
    (taken_actions : Option Mat) : Except String (Mat × Tensor × Mat) :=
  let actions := producedActions cfg mean_actions log_std noise
  let log_prob := reducedLogProb cfg (actLogProb cfg mean_actions log_std noise taken_actions)
    (Tensor.t2 actions).dim
  let mean_out := meanActionsOut cfg mean_actions
  if anyNaN actions then .error "NaN values found in actions"
  else .ok (actions, log_prob, mean_out)

/-- Claim C5: `act` fails with the NaN error (NumericalInstabilityError)
exactly when some element of the produced actions tensor is NaN: on a NaN it
raises to the caller as a hard stop and returns no tuple; with no NaN in the
actions no such error is raised and the `(actions, log_prob, outputs)` triple
is returned (the log-probability or inputs may even contain NaN — only the
actions are checked). -/
theorem act_nan_check (cfg : GaussCfg) (mean_actions log_std noise : Mat)
    (taken_actions : Option Mat) :
    (anyNaN (producedActions cfg mean_actions log_std noise) = true →
      act cfg mean_actions log_std noise taken_actions =
        .error "NaN values found in actions") ∧
    (anyNaN (producedActions cfg mean_actions log_std noise) = false →
      act cfg mean_actions log_std noise taken_actions =
        .ok (producedActions cfg mean_actions log_std noise,
          reducedLogProb cfg (actLogProb cfg mean_actions log_std noise taken_actions)
            (Tensor.t2 (producedActions cfg mean_actions log_std noise)).dim,
          meanActionsOut cfg mean_actions)) := by
  constructor
  · intro h
    simp [act, h]
  · intro h
    simp [act, h]

/-- Witness for **C5**: with a NaN mean the produced actions contain NaN and
`act` raises; with finite inputs it returns the triple. -/
theorem act_nan_check_witness :
    act ⟨false, true, -20, 2, some RedOp.rsum, [], []⟩ [[none]] [[some 0]] [[some 0]] none =
      .error "NaN values found in actions" ∧
    act ⟨false, true, -20, 2, some RedOp.rsum, [], []⟩ [[some 0]] [[some 0]] [[some 0]] none =
      .ok (producedActions ⟨false, true, -20, 2, some RedOp.rsum, [], []⟩
          [[some 0]] [[some 0]] [[some 0]],
        reducedLogProb ⟨false, true, -20, 2, some RedOp.rsum, [], []⟩
          (actLogProb ⟨false, true, -20, 2, some RedOp.rsum, [], []⟩
            [[some 0]] [[some 0]] [[some 0]] none)
          (Tensor.t2 (producedActions ⟨false, true, -20, 2, some RedOp.rsum, [], []⟩
            [[some 0]] [[some 0]] [[some 0]])).dim,
        meanActionsOut ⟨false, true, -20, 2, some RedOp.rsum, [], []⟩ [[some 0]]) :=
  ⟨(act_nan_check ⟨false, true, -20, 2, some RedOp.rsum, [], []⟩
      [[none]] [[some 0]] [[some 0]] none).1 (by rfl),
   (act_nan_check ⟨false, true, -20, 2, some RedOp.rsum, [], []⟩
      [[some 0]] [[some 0]] [[some 0]] none).2 (by rfl)⟩

/-! ### Shape, NaN and element helpers for the act pipeline -/

/-- Matrix `m` is a batch of `B` rows, each of `D` action dimensions. -/
def shape2 (m : Mat) (B D : ℕ) : Prop := m.length = B ∧ ∀ r ∈ m, r.length = D

/-- No entry of the matrix is NaN. -/
def NoNaN (m : Mat) : Prop := ∀ r ∈ m, ∀ x ∈ r, x ≠ none

/-- Element access `m[i][j]` (outer `none` when out of range). -/
def elemAt (m : Mat) (i j : ℕ) : Option F := (m.get? i).bind (fun r => r.get? j)

theorem get?_map' (f : α → β) : ∀ (l : List α) (i : ℕ), (l.map f).get? i = (l.get? i).map f
  | [], _ => rfl
  | _ :: _, 0 => rfl
  | _ :: l, i + 1 => get?_map' f l i

theorem get?_zipWith3 (f : α → β → γ → δ) :
    ∀ (a : List α) (b : List β) (c : List γ) (i : ℕ) (x : α) (y : β) (z : γ),
      a.get? i = some x → b.get? i = some y → c.get? i = some z →
      (zipWith3 f a b c).get? i = some (f x y z) := by
  intro a
  induction a with
  | nil => intro b c i x y z hx; simp at hx
  | cons a as ih =>
      intro b c i x y z hx hy hz
      cases b with
      | nil => simp at hy
      | cons b bs =>
          cases c with
          | nil => simp at hz
          | cons c cs =>
              cases i with
              | zero =>
                  simp only [List.get?] at hx hy hz
                  cases hx; cases hy; cases hz; rfl
              | succ i =>
                  simp only [List.get?] at hx hy hz ⊢
                  exact ih bs cs i x y z hx hy hz

theorem get?_some_of_lt {l : List α} {i : ℕ} (h : i < l.length) :
    ∃ x, l.get? i = some x ∧ x ∈ l := by
  induction l generalizing i with
  | nil => simp at h
  | cons a as ih =>
      cases i with
      | zero => exact ⟨a, rfl, List.mem_cons_self a as⟩
      | succ i =>
          obtain ⟨x, hx, hmem⟩ := ih (by simpa using h)
          exact ⟨x, hx, List.mem_cons_of_mem a hmem⟩

theorem length_zipWith3 (f : α → β → γ → δ) :
    ∀ (a : List α) (b : List β) (c : List γ), a.length = b.length → a.length = c.length →
      (zipWith3 f a b c).length = a.length := by
  intro a
  induction a with
  | nil => intro b c _ _; rfl
  | cons x as ih =>
      intro b c hb hc
      cases b with
      | nil => simp at hb
      | cons y bs =>
          cases c with
          | nil => simp at hc
          | cons z cs =>
              simp only [List.length_cons, Nat.add_right_cancel_iff] at hb hc
              simp only [zipWith3, List.length_cons, Nat.add_right_cancel_iff]
              exact ih bs cs hb hc

theorem mem_zipWith {f : α → β → γ} :
    ∀ {a : List α} {b : List β} {x : γ}, x ∈ List.zipWith f a b →
      ∃ u ∈ a, ∃ v ∈ b, x = f u v := by
  intro a
  induction a with
  | nil => intro b x h; simp at h
  | cons u us ih =>
      intro b x h
      cases b with
      | nil => simp at h
      | cons v vs =>
          simp only [List.zipWith_cons_cons, List.mem_cons] at h
          rcases h with h | h
          · exact ⟨u, List.mem_cons_self u us, v, List.mem_cons_self v vs, h⟩
          · obtain ⟨u', hu, v', hv, hx⟩ := ih h
            exact ⟨u', List.mem_cons_of_mem u hu, v', List.mem_cons_of_mem v hv, hx⟩

theorem mem_zipWith3 {f : α → β → γ → δ} :
    ∀ {a : List α} {b : List β} {c : List γ} {x : δ}, x ∈ zipWith3 f a b c →
      ∃ u ∈ a, ∃ v ∈ b, ∃ w ∈ c, x = f u v w := by
  intro a
  induction a with
  | nil => intro b c x h; simp [zipWith3] at h
  | cons u us ih =>
      intro b c x h
      cases b with
      | nil => simp [zipWith3] at h
      | cons v vs =>
          cases c with
          | nil => simp [zipWith3] at h
          | cons w ws =>
              simp only [zipWith3, List.mem_cons] at h
              rcases h with h | h
              · exact ⟨u, List.mem_cons_self u us, v, List.mem_cons_self v vs,
                  w, List.mem_cons_self w ws, h⟩
              · obtain ⟨u', hu, v', hv, w', hw, hx⟩ := ih h
                exact ⟨u', List.mem_cons_of_mem u hu, v', List.mem_cons_of_mem v hv,
                  w', List.mem_cons_of_mem w hw, hx⟩

theorem shape2_mU (f : F → F) {m : Mat} {B D : ℕ} (h : shape2 m B D) :
    shape2 (mU f m) B D := by
  refine ⟨by simpa [mU] using h.1, ?_⟩
  intro r hr
  obtain ⟨r0, hr0, rfl⟩ := List.mem_map.mp hr
  simpa using h.2 r0 hr0

theorem shape2_mB (f : F → F → F) {a b : Mat} {B D : ℕ}
    (ha : shape2 a B D) (hb : shape2 b B D) : shape2 (mB f a b) B D := by
  refine ⟨by simp [mB, List.length_zipWith, ha.1, hb.1], ?_⟩
  intro r hr
  obtain ⟨ra, hra, rb, hrb, rfl⟩ := mem_zipWith hr
  simp [List.length_zipWith, ha.2 ra hra, hb.2 rb hrb]

theorem shape2_mT (f : F → F → F → F) {a b c : Mat} {B D : ℕ}
    (ha : shape2 a B D) (hb : shape2 b B D) (hc : shape2 c B D) :
    shape2 (mT f a b c) B D := by
  constructor
  · rw [mT, length_zipWith3 _ a b c (ha.1.trans hb.1.symm) (ha.1.trans hc.1.symm)]
    exact ha.1
  intro r hr
  obtain ⟨ra, hra, rb, hrb, rc, hrc, rfl⟩ := mem_zipWith3 hr
  rw [length_zipWith3 _ ra rb rc ((ha.2 ra hra).trans (hb.2 rb hrb).symm)
    ((ha.2 ra hra).trans (hc.2 rc hrc).symm)]
  exact ha.2 ra hra

theorem shape2_rowZip2 (g : F → ℝ → ℝ → F) {m : Mat} {lo hi : List ℝ} {B D : ℕ}
    (hm : shape2 m B D) (hlo : lo.length = D) (hhi : hi.length = D) :
    shape2 (rowZip2 g m lo hi) B D := by
  refine ⟨by simpa [rowZip2] using hm.1, ?_⟩
  intro r hr
  obtain ⟨r0, hr0, rfl⟩ := List.mem_map.mp hr
  rw [length_zipWith3 _ r0 lo hi ((hm.2 r0 hr0).trans hlo.symm)
    ((hm.2 r0 hr0).trans hhi.symm)]
  exact hm.2 r0 hr0

theorem noNaN_mU (g : ℝ → ℝ) {m : Mat} (h : NoNaN m) : NoNaN (mU (fU g) m) := by
  intro r hr x hx
  obtain ⟨r0, hr0, rfl⟩ := List.mem_map.mp hr
  obtain ⟨x0, hx0, rfl⟩ := List.mem_map.mp hx
  have := h r0 hr0 x0 hx0
  cases x0 with
  | none => exact absurd rfl this
  | some v => simp [fU]

theorem noNaN_mB (g : ℝ → ℝ → ℝ) {a b : Mat} (ha : NoNaN a) (hb : NoNaN b) :
    NoNaN (mB (fB g) a b) := by
  intro r hr x hx
  obtain ⟨ra, hra, rb, hrb, rfl⟩ := mem_zipWith hr
  obtain ⟨u, hu, v, hv, rfl⟩ := mem_zipWith hx
  have hu' := ha ra hra u hu
  have hv' := hb rb hrb v hv
  cases u with
  | none => exact absurd rfl hu'
  | some x0 =>
      cases v with
      | none => exact absurd rfl hv'
      | some y0 => simp [fB]

theorem anyNaN_eq_false {m : Mat} (h : NoNaN m) : anyNaN m = false := by
  cases hx : anyNaN m with
  | false => rfl
  | true =>
      exfalso
      simp only [anyNaN, List.any_eq_true] at hx
      obtain ⟨r, hr, x, hxr, hnan⟩ := hx
      cases x with
      | none => exact h r hr none hxr rfl
      | some v => simp [isNaN] at hnan

theorem shape2_clampedLogStd {cfg : GaussCfg} {log_std : Mat} {B D : ℕ}
    (h : shape2 log_std B D) : shape2 (clampedLogStd cfg log_std) B D := by
  unfold clampedLogStd
  split
  · exact shape2_mU _ h
  · exact h

theorem shape2_distLoc {cfg : GaussCfg} {mean_actions : Mat} {B D : ℕ}
    (h : shape2 mean_actions B D) : shape2 (distLoc cfg mean_actions) B D := by
  unfold distLoc
  split
  · exact shape2_mU _ h
  · exact h

theorem shape2_distScale {cfg : GaussCfg} {log_std : Mat} {B D : ℕ}
    (h : shape2 log_std B D) : shape2 (distScale cfg log_std) B D :=
  shape2_mU _ (shape2_clampedLogStd h)

theorem shape2_rsample {cfg : GaussCfg} {mean_actions log_std noise : Mat} {B D : ℕ}
    (hm : shape2 mean_actions B D) (hs : shape2 log_std B D) (hn : shape2 noise B D) :
    shape2 (rsample cfg mean_actions log_std noise) B D :=
  shape2_mB _ (shape2_distLoc hm) (shape2_mB _ (shape2_distScale hs) hn)

theorem shape2_producedActions {cfg : GaussCfg} {mean_actions log_std noise : Mat} {B D : ℕ}
    (hm : shape2 mean_actions B D) (hs : shape2 log_std B D) (hn : shape2 noise B D)
    (hlo : cfg.clip_actions = true → cfg.clip_actions_min.length = D)
    (hhi : cfg.clip_actions = true → cfg.clip_actions_max.length = D) :
    shape2 (producedActions cfg mean_actions log_std noise) B D := by
  unfold producedActions
  split
  · rename_i hc
    exact shape2_rowZip2 _ (shape2_rsample hm hs hn) (hlo hc) (hhi hc)
  · exact shape2_rsample hm hs hn

theorem noNaN_clampedLogStd {cfg : GaussCfg} {log_std : Mat} (h : NoNaN log_std) :
    NoNaN (clampedLogStd cfg log_std) := by
  unfold clampedLogStd
  split
  · exact noNaN_mU _ h
  · exact h

theorem noNaN_distLoc {cfg : GaussCfg} {mean_actions : Mat} (h : NoNaN mean_actions) :
    NoNaN (distLoc cfg mean_actions) := by
  unfold distLoc
  split
  · exact noNaN_mU _ h
  · exact h

theorem noNaN_rsample {cfg : GaussCfg} {mean_actions log_std noise : Mat}
    (hm : NoNaN mean_actions) (hs : NoNaN log_std) (hn : NoNaN noise) :
    NoNaN (rsample cfg mean_actions log_std noise) :=
  noNaN_mB _ (noNaN_distLoc hm) (noNaN_mB _ (noNaN_mU _ (noNaN_clampedLogStd hs)) hn)

theorem noNaN_scaleActions {lo hi : List ℝ} {a : Mat} (h : NoNaN a) :
    NoNaN (scaleActions lo hi a) := by
  intro r hr x hx
  obtain ⟨r0, hr0, rfl⟩ := List.mem_map.mp hr
  obtain ⟨u, hu, l, _, w, _, rfl⟩ := mem_zipWith3 hx
  have := h r0 hr0 u hu
  cases u with
  | none => exact absurd rfl this
  | some v => simp [fU]

theorem noNaN_producedActions {cfg : GaussCfg} {mean_actions log_std noise : Mat}
    (hm : NoNaN mean_actions) (hs : NoNaN log_std) (hn : NoNaN noise) :
    NoNaN (producedActions cfg mean_actions log_std noise) := by
  unfold producedActions
  split
  · exact noNaN_scaleActions (noNaN_rsample hm hs hn)
  · exact noNaN_rsample hm hs hn

theorem shape2_actLogProb_no_clip {cfg : GaussCfg} {mean_actions log_std noise : Mat}
    {taken_actions : Option Mat} {B D : ℕ}
    (hclip : cfg.clip_actions = false)
    (hm : shape2 mean_actions B D) (hs : shape2 log_std B D) (hn : shape2 noise B D)
    (ht : ∀ ta, taken_actions = some ta → shape2 ta B D) :
    shape2 (actLogProb cfg mean_actions log_std noise taken_actions) B D := by
  unfold actLogProb
  simp only [hclip, Bool.false_eq_true, if_false]
  cases taken_actions with
  | none =>
      exact shape2_mT _ (shape2_distLoc hm) (shape2_distScale hs)
        (shape2_rsample hm hs hn)
  | some ta =>
      exact shape2_mT _ (shape2_distLoc hm) (shape2_distScale hs) (ht ta rfl)

theorem reducedLogProb_none {cfg : GaussCfg} (lp : Mat) (h : cfg.reduction = none) :
    reducedLogProb cfg lp 2 = .t2 lp := by
  simp [reducedLogProb, h, Tensor.dim]

theorem reducedLogProb_some {cfg : GaussCfg} (lp : Mat) (op : RedOp)
    (h : cfg.reduction = some op) :
    reducedLogProb cfg lp 2 = .t2 (lp.map (fun r => [rowReduce op r])) := by
  simp [reducedLogProb, h, reduceLast, Tensor.dim, Tensor.unsqueezeLast, List.map_map,
    Function.comp]

/-- Claim C2: with `clip_actions` disabled, `act` on a `(B, D)` batch (finite
inputs, and `taken_actions` of the same shape when present) succeeds, the
returned actions have shape `(B, D)`, and the returned log-probability has
shape `(B, 1)` when the stored reduction is `mean`/`sum`/`prod` (the
rank-collapsed `(B,)` tensor is re-expanded by a trailing unsqueeze to match
the actions' rank), or shape `(B, D)` when the reduction is `none`. -/
theorem act_shapes_no_clip (cfg : GaussCfg) (B D : ℕ)
    (mean_actions log_std noise : Mat) (taken_actions : Option Mat)
    (hclip : cfg.clip_actions = false)
    (hm : shape2 mean_actions B D) (hs : shape2 log_std B D) (hn : shape2 noise B D)
    (ht : ∀ ta, taken_actions = some ta → shape2 ta B D)
    (hmn : NoNaN mean_actions) (hsn : NoNaN log_std) (hnn : NoNaN noise) :
    ∃ lp mo, act cfg mean_actions log_std noise taken_actions =
        .ok (producedActions cfg mean_actions log_std noise, lp, mo) ∧
      shape2 (producedActions cfg mean_actions log_std noise) B D ∧
      (cfg.reduction = Option.none → ∃ l, lp = Tensor.t2 l ∧ shape2 l B D) ∧
      (∀ op, cfg.reduction = some op → ∃ l, lp = Tensor.t2 l ∧ shape2 l B 1) := by
  have hpa : NoNaN (producedActions cfg mean_actions log_std noise) :=
    noNaN_producedActions hmn hsn hnn
  have hsh : shape2 (producedActions cfg mean_actions log_std noise) B D :=
    shape2_producedActions hm hs hn (fun hc => absurd hc (by simp [hclip]))
      (fun hc => absurd hc (by simp [hclip]))
  have hlp : shape2 (actLogProb cfg mean_actions log_std noise taken_actions) B D :=
    shape2_actLogProb_no_clip hclip hm hs hn ht
  refine ⟨reducedLogProb cfg (actLogProb cfg mean_actions log_std noise taken_actions)
      (Tensor.t2 (producedActions cfg mean_actions log_std noise)).dim,
    meanActionsOut cfg mean_actions,
    by simp [act, anyNaN_eq_false hpa], hsh, ?_, ?_⟩
  · intro hred
    refine ⟨actLogProb cfg mean_actions log_std noise taken_actions, ?_, hlp⟩
    have := reducedLogProb_none
      (actLogProb cfg mean_actions log_std noise taken_actions) hred
    simpa [Tensor.dim] using this
  · intro op hred
    refine ⟨(actLogProb cfg mean_actions log_std noise taken_actions).map
      (fun r => [rowReduce op r]), ?_, ?_⟩
    · have := reducedLogProb_some
        (actLogProb cfg mean_actions log_std noise taken_actions) op hred
      simpa [Tensor.dim] using this
    · constructor
      · simpa using hlp.1
      · intro r hr
        obtain ⟨r0, _, rfl⟩ := List.mem_map.mp hr
        rfl

/-- Witness for **C2** on a 1×2 batch with reduction `sum` and with reduction
`none`. -/
theorem act_shapes_no_clip_witness :
    (∃ lp mo, act ⟨false, true, -20, 2, some RedOp.rsum, [], []⟩
        [[some 0, some 0]] [[some 0, some 0]] [[some 0, some 0]] none =
        .ok (producedActions ⟨false, true, -20, 2, some RedOp.rsum, [], []⟩
          [[some 0, some 0]] [[some 0, some 0]] [[some 0, some 0]], lp, mo) ∧
      shape2 (producedActions ⟨false, true, -20, 2, some RedOp.rsum, [], []⟩
        [[some 0, some 0]] [[some 0, some 0]] [[some 0, some 0]]) 1 2 ∧
      ((⟨false, true, -20, 2, some RedOp.rsum, [], []⟩ : GaussCfg).reduction = Option.none →
        ∃ l, lp = Tensor.t2 l ∧ shape2 l 1 2) ∧
      (∀ op, (⟨false, true, -20, 2, some RedOp.rsum, [], []⟩ : GaussCfg).reduction = some op →
        ∃ l, lp = Tensor.t2 l ∧ shape2 l 1 1)) ∧
    (∃ lp mo, act ⟨false, true, -20, 2, none, [], []⟩
        [[some 0, some 0]] [[some 0, some 0]] [[some 0, some 0]] none =
        .ok (producedActions ⟨false, true, -20, 2, none, [], []⟩
          [[some 0, some 0]] [[some 0, some 0]] [[some 0, some 0]], lp, mo) ∧
      shape2 (producedActions ⟨false, true, -20, 2, none, [], []⟩
        [[some 0, some 0]] [[some 0, some 0]] [[some 0, some 0]]) 1 2 ∧
      ((⟨false, true, -20, 2, none, [], []⟩ : GaussCfg).reduction = Option.none →
        ∃ l, lp = Tensor.t2 l ∧ shape2 l 1 2) ∧
      (∀ op, (⟨false, true, -20, 2, none, [], []⟩ : GaussCfg).reduction = some op →
        ∃ l, lp = Tensor.t2 l ∧ shape2 l 1 1)) :=
  ⟨act_shapes_no_clip ⟨false, true, -20, 2, some RedOp.rsum, [], []⟩ 1 2
      [[some 0, some 0]] [[some 0, some 0]] [[some 0, some 0]] none rfl
      (by constructor <;> simp) (by constructor <;> simp) (by constructor <;> simp)
      (fun ta h => Option.noConfusion h)
      (by simp [NoNaN]) (by simp [NoNaN]) (by simp [NoNaN]),
   act_shapes_no_clip ⟨false, true, -20, 2, none, [], []⟩ 1 2
      [[some 0, some 0]] [[some 0, some 0]] [[some 0, some 0]] none rfl
      (by constructor <;> simp) (by constructor <;> simp) (by constructor <;> simp)
      (fun ta h => Option.noConfusion h)
      (by simp [NoNaN]) (by simp [NoNaN]) (by simp [NoNaN])⟩

/-- Claim C3: with `clip_actions` enabled and per-dimension bounds `low ≤ high`,
every element of the actions tensor returned by `act` is a finite value inside
`[low[j], high[j]]` for its dimension `j` — the sample is tanh-squashed into
`[-1, 1]` and then mapped linearly into the bounds. -/
theorem act_bounds_clip (cfg : GaussCfg) (B D : ℕ)
    (mean_actions log_std noise : Mat) (taken_actions : Option Mat)
    (hclip : cfg.clip_actions = true)
    (hm : shape2 mean_actions B D) (hs : shape2 log_std B D) (hn : shape2 noise B D)
    (hmn : NoNaN mean_actions) (hsn : NoNaN log_std) (hnn : NoNaN noise)
    (hlo : cfg.clip_actions_min.length = D) (hhi : cfg.clip_actions_max.length = D)
    (hb : ∀ j l h, cfg.clip_actions_min.get? j = some l →
        cfg.clip_actions_max.get? j = some h → l ≤ h) :
    ∃ lp mo, act cfg mean_actions log_std noise taken_actions =
        .ok (producedActions cfg mean_actions log_std noise, lp, mo) ∧
      ∀ r ∈ producedActions cfg mean_actions log_std noise, ∀ j, j < D →
        ∃ v l h, cfg.clip_actions_min.get? j = some l ∧
          cfg.clip_actions_max.get? j = some h ∧
          r.get? j = some (some v) ∧ l ≤ v ∧ v ≤ h := by
  have hpa : NoNaN (producedActions cfg mean_actions log_std noise) :=
    noNaN_producedActions hmn hsn hnn
  refine ⟨reducedLogProb cfg (actLogProb cfg mean_actions log_std noise taken_actions)
      (Tensor.t2 (producedActions cfg mean_actions log_std noise)).dim,
    meanActionsOut cfg mean_actions, by simp [act, anyNaN_eq_false hpa], ?_⟩
  intro r hr j hj
  have hr' : r ∈ scaleActions cfg.clip_actions_min cfg.clip_actions_max
      (rsample cfg mean_actions log_std noise) := by
    unfold producedActions at hr
    rwa [if_pos hclip] at hr
  obtain ⟨r0, hr0, rfl⟩ := List.mem_map.mp hr'
  have hshape : r0.length = D := (shape2_rsample hm hs hn).2 r0 hr0
  have hno := noNaN_rsample hmn hsn hnn r0 hr0
  obtain ⟨x, hx, hxmem⟩ := get?_some_of_lt (show j < r0.length by omega)
  obtain ⟨l, hl, _⟩ := get?_some_of_lt (show j < cfg.clip_actions_min.length by omega)
  obtain ⟨h, hh, _⟩ := get?_some_of_lt (show j < cfg.clip_actions_max.length by omega)
  have hx' := hno x hxmem
  cases x with
  | none => exact absurd rfl hx'
  | some s =>
      refine ⟨(Real.tanh s + 1) / 2 * (h - l) + l, l, h, hl, hh, ?_, ?_, ?_⟩
      · exact get?_zipWith3 _ r0 cfg.clip_actions_min cfg.clip_actions_max j _ _ _ hx hl hh
      · nlinarith [tanh_lt_one s, neg_one_lt_tanh s, hb j l h hl hh]
      · nlinarith [tanh_lt_one s, neg_one_lt_tanh s, hb j l h hl hh]

/-- Witness for **C3** on a 1×2 batch with bounds `[-1, 0]` and `[1, 2]`. -/
theorem act_bounds_clip_witness :
    ∃ lp mo, act ⟨true, true, -20, 2, some RedOp.rsum, [-1, 0], [1, 2]⟩
        [[some 0, some 0]] [[some 0, some 0]] [[some 0, some 0]] none =
        .ok (producedActions ⟨true, true, -20, 2, some RedOp.rsum, [-1, 0], [1, 2]⟩
          [[some 0, some 0]] [[some 0, some 0]] [[some 0, some 0]], lp, mo) ∧
      ∀ r ∈ producedActions ⟨true, true, -20, 2, some RedOp.rsum, [-1, 0], [1, 2]⟩
          [[some 0, some 0]] [[some 0, some 0]] [[some 0, some 0]], ∀ j, j < 2 →
        ∃ v l h,
          (⟨true, true, -20, 2, some RedOp.rsum, [-1, 0], [1, 2]⟩
            : GaussCfg).clip_actions_min.get? j = some l ∧
          (⟨true, true, -20, 2, some RedOp.rsum, [-1, 0], [1, 2]⟩
            : GaussCfg).clip_actions_max.get? j = some h ∧
          r.get? j = some (some v) ∧ l ≤ v ∧ v ≤ h :=
  act_bounds_clip ⟨true, true, -20, 2, some RedOp.rsum, [-1, 0], [1, 2]⟩ 1 2
    [[some 0, some 0]] [[some 0, some 0]] [[some 0, some 0]] none rfl
    (by constructor <;> simp) (by constructor <;> simp) (by constructor <;> simp)
    (by simp [NoNaN]) (by simp [NoNaN]) (by simp [NoNaN]) rfl rfl
    (by
      intro j l h hl hh
      match j with
      | 0 =>
          simp only [List.get?, Option.some.injEq] at hl hh
          subst hl; subst hh; norm_num
      | 1 =>
          simp only [List.get?, Option.some.injEq] at hl hh
          subst hl; subst hh; norm_num
      | (n + 2) => simp only [List.get?] at hl; cases hl)

theorem elemAt_some {m : Mat} {i j : ℕ} {x : F} (h : elemAt m i j = some x) :
    ∃ r, m.get? i = some r ∧ r.get? j = some x := by
  unfold elemAt at h
  cases hi : m.get? i with
  | none => rw [hi] at h; cases h
  | some r => rw [hi] at h; exact ⟨r, rfl, h⟩

theorem elemAt_mU (f : F → F) {m : Mat} {i j : ℕ} {x : F} (h : elemAt m i j = some x) :
    elemAt (mU f m) i j = some (f x) := by
  obtain ⟨r, hri, hrj⟩ := elemAt_some h
  unfold elemAt mU
  rw [get?_map', hri]
  show (r.map f).get? j = some (f x)
  rw [get?_map', hrj]
  rfl

theorem elemAt_mB (f : F → F → F) {a b : Mat} {i j : ℕ} {x y : F}
    (ha : elemAt a i j = some x) (hb : elemAt b i j = some y) :
    elemAt (mB f a b) i j = some (f x y) := by
  obtain ⟨ra, hai, haj⟩ := elemAt_some ha
  obtain ⟨rb, hbi, hbj⟩ := elemAt_some hb
  unfold elemAt mB
  rw [get?_zipWith_some _ a b i ra rb hai hbi]
  exact get?_zipWith_some f ra rb j x y haj hbj

theorem elemAt_mT (f : F → F → F → F) {a b c : Mat} {i j : ℕ} {x y z : F}
    (ha : elemAt a i j = some x) (hb : elemAt b i j = some y)
    (hc : elemAt c i j = some z) :
    elemAt (mT f a b c) i j = some (f x y z) := by
  obtain ⟨ra, hai, haj⟩ := elemAt_some ha
  obtain ⟨rb, hbi, hbj⟩ := elemAt_some hb
  obtain ⟨rc, hci, hcj⟩ := elemAt_some hc
  unfold elemAt mT
  rw [get?_zipWith3 _ a b c i ra rb rc hai hbi hci]
  exact get?_zipWith3 f ra rb rc j x y z haj hbj hcj

theorem elemAt_rowZip2 (g : F → ℝ → ℝ → F) {m : Mat} {lov hiv : List ℝ} {i j : ℕ}
    {x : F} {l h : ℝ}
    (hm : elemAt m i j = some x) (hl : lov.get? j = some l) (hh : hiv.get? j = some h) :
    elemAt (rowZip2 g m lov hiv) i j = some (g x l h) := by
  obtain ⟨r, hri, hrj⟩ := elemAt_some hm
  unfold elemAt rowZip2
  rw [get?_map', hri]
  exact get?_zipWith3 g r lov hiv j x l h hrj hl hh

theorem elemAt_clampedLogStd {cfg : GaussCfg} {log_std : Mat} {i j : ℕ} {v : ℝ}
    (h : elemAt log_std i j = some (some v)) :
    elemAt (clampedLogStd cfg log_std) i j =
      some (some (if cfg.clip_log_std then
        min (max v cfg.log_std_min) cfg.log_std_max else v)) := by
  by_cases hc : cfg.clip_log_std
  · rw [clampedLogStd, if_pos hc, if_pos hc]
    exact elemAt_mU (fU fun w => min (max w cfg.log_std_min) cfg.log_std_max) h
  · rw [clampedLogStd, if_neg hc, if_neg hc]
    exact h

/-- Claim C1: with `clip_actions` enabled and a `taken_actions` tensor present,
`act` succeeds (given NaN-free produced actions) returning the reduced form of
the pre-reduction log-probability tensor, and each element of that
pre-reduction tensor is the Gaussian log-density — of the distribution built
from `tanh(mean)` and `exp((clamped) log_std)` — evaluated at the stable
inverse tanh of the linear rescale of `taken_actions` from `[low, high]` to
`[-1, 1]`, minus the tanh-Jacobian correction
`log(1 - unscaled^2 + EPS)` with `EPS = 1e-6`. -/
theorem act_taken_log_prob (cfg : GaussCfg) (mean_actions log_std noise ta : Mat)
    (i j : ℕ) (mv lv tv lo hi : ℝ)
    (hclip : cfg.clip_actions = true)
    (hmv : elemAt mean_actions i j = some (some mv))
    (hlv : elemAt log_std i j = some (some lv))
    (htv : elemAt ta i j = some (some tv))
    (hlo : cfg.clip_actions_min.get? j = some lo)
    (hhi : cfg.clip_actions_max.get? j = some hi)
    (hnan : anyNaN (producedActions cfg mean_actions log_std noise) = false) :
    act cfg mean_actions log_std noise (some ta) =
      .ok (producedActions cfg mean_actions log_std noise,
        reducedLogProb cfg (actLogProb cfg mean_actions log_std noise (some ta))
          (Tensor.t2 (producedActions cfg mean_actions log_std noise)).dim,
        meanActionsOut cfg mean_actions) ∧
    elemAt (actLogProb cfg mean_actions log_std noise (some ta)) i j =
      some (some (
        normalLogProb (Real.tanh mv)
          (Real.exp (if cfg.clip_log_std then
            min (max lv cfg.log_std_min) cfg.log_std_max else lv))
          (inverse_tanh machineEps ((tv - lo) / (hi - lo) * 2 - 1)) -
        Real.log (1 - ((tv - lo) / (hi - lo) * 2 - 1) * ((tv - lo) / (hi - lo) * 2 - 1)
          + EPS))) := by
  constructor
  · simp [act, hnan]
  · have hred : actLogProb cfg mean_actions log_std noise (some ta) =
        takenLogProb cfg mean_actions log_std ta := by
      unfold actLogProb
      rw [if_pos hclip]
    rw [hred]
    have hu : elemAt (unscaleActions cfg.clip_actions_min cfg.clip_actions_max ta) i j =
        some (some ((tv - lo) / (hi - lo) * 2 - 1)) :=
      elemAt_rowZip2 _ htv hlo hhi
    have hg : elemAt (mU (fU (inverse_tanh machineEps))
        (unscaleActions cfg.clip_actions_min cfg.clip_actions_max ta)) i j =
        some (some (inverse_tanh machineEps ((tv - lo) / (hi - lo) * 2 - 1))) :=
      elemAt_mU (fU (inverse_tanh machineEps)) hu
    have hloc : elemAt (distLoc cfg mean_actions) i j = some (some (Real.tanh mv)) := by
      rw [distLoc, if_pos hclip]
      exact elemAt_mU (fU Real.tanh) hmv
    have hscale : elemAt (distScale cfg log_std) i j =
        some (some (Real.exp (if cfg.clip_log_std then
          min (max lv cfg.log_std_min) cfg.log_std_max else lv))) := by
      rw [distScale]
      exact elemAt_mU (fU Real.exp) (elemAt_clampedLogStd hlv)
    have hlp : elemAt (distLogProb (distLoc cfg mean_actions) (distScale cfg log_std)
        (mU (fU (inverse_tanh machineEps))
          (unscaleActions cfg.clip_actions_min cfg.clip_actions_max ta))) i j =
        some (some (normalLogProb (Real.tanh mv)
          (Real.exp (if cfg.clip_log_std then
            min (max lv cfg.log_std_min) cfg.log_std_max else lv))
          (inverse_tanh machineEps ((tv - lo) / (hi - lo) * 2 - 1)))) := by
      rw [distLogProb]
      exact elemAt_mT (fT normalLogProb) hloc hscale hg
    have hcorr : elemAt (mU (fU (fun u => Real.log (1 - u * u + EPS)))
        (unscaleActions cfg.clip_actions_min cfg.clip_actions_max ta)) i j =
        some (some (Real.log (1 - ((tv - lo) / (hi - lo) * 2 - 1) *
          ((tv - lo) / (hi - lo) * 2 - 1) + EPS))) :=
      elemAt_mU (fU (fun u => Real.log (1 - u * u + EPS))) hu
    exact elemAt_mB (fB (· - ·)) hlp hcorr

/-- Witness for **C1** at the single element of a 1×1 batch with bounds
`[-1, 1]` and `taken_actions = [[0]]`. -/
theorem act_taken_log_prob_witness :
    act ⟨true, true, -20, 2, some RedOp.rsum, [-1], [1]⟩
        [[some 0]] [[some 0]] [[some 0]] (some [[some 0]]) =
      .ok (producedActions ⟨true, true, -20, 2, some RedOp.rsum, [-1], [1]⟩
          [[some 0]] [[some 0]] [[some 0]],
        reducedLogProb ⟨true, true, -20, 2, some RedOp.rsum, [-1], [1]⟩
          (actLogProb ⟨true, true, -20, 2, some RedOp.rsum, [-1], [1]⟩
            [[some 0]] [[some 0]] [[some 0]] (some [[some 0]]))
          (Tensor.t2 (producedActions ⟨true, true, -20, 2, some RedOp.rsum, [-1], [1]⟩
            [[some 0]] [[some 0]] [[some 0]])).dim,
        meanActionsOut ⟨true, true, -20, 2, some RedOp.rsum, [-1], [1]⟩ [[some 0]]) ∧
    elemAt (actLogProb ⟨true, true, -20, 2, some RedOp.rsum, [-1], [1]⟩
        [[some 0]] [[some 0]] [[some 0]] (some [[some 0]])) 0 0 =
      some (some (
        normalLogProb (Real.tanh 0)
          (Real.exp (if (⟨true, true, -20, 2, some RedOp.rsum, [-1], [1]⟩
            : GaussCfg).clip_log_std then
            min (max 0 (⟨true, true, -20, 2, some RedOp.rsum, [-1], [1]⟩
              : GaussCfg).log_std_min)
              (⟨true, true, -20, 2, some RedOp.rsum, [-1], [1]⟩ : GaussCfg).log_std_max
            else 0))
          (inverse_tanh machineEps ((0 - -1) / (1 - -1) * 2 - 1)) -
        Real.log (1 - ((0 - -1) / (1 - -1) * 2 - 1) * ((0 - -1) / (1 - -1) * 2 - 1)
          + EPS))) :=
  act_taken_log_prob ⟨true, true, -20, 2, some RedOp.rsum, [-1], [1]⟩
    [[some 0]] [[some 0]] [[some 0]] [[some 0]] 0 0 0 0 0 (-1) 1
    rfl rfl rfl rfl rfl rfl (by rfl)

/-! ## `GaussianMixin.__init__` (skrl/models/torch/gaussian.py) -/

/-- A float bound entry of a Box space: finite, `+inf`, or `-inf`. -/
inductive FB where
  | finite (x : ℝ)
  | posInf
  | negInf

/-- The mutable low/high arrays of a `gymnasium.spaces.Box` action space. -/
structure BoxSpace where
  low : List FB
  high : List FB

/-- The constructor's in-place loop over `action_space.low`: each `-inf`
entry is overwritten with `-1.0`. -/
noncomputable def sanitizeLow (l : List FB) : List FB :=
  l.map (fun b => match b with
    | .negInf => .finite (-1)
    | x => x)

/-- The constructor's in-place loop over `action_space.high`: each `inf`
entry is overwritten with `1.0`. -/
noncomputable def sanitizeHigh (l : List FB) : List FB :=
  l.map (fun b => match b with
    | .posInf => .finite 1
    | x => x)

/-- Whether a bound entry is `-inf`. -/
def FB.isNegInf : FB → Bool
  | .negInf => true
  | _ => false

/-- Whether a bound entry is `+inf`. -/
def FB.isPosInf : FB → Bool
  | .posInf => true
  | _ => false

/-- The `_g_*` attributes stored by `GaussianMixin.__init__`. When clipping is
disabled the bound attributes are never assigned; the empty list stands for
the absent attribute. -/
structure GMixinState where
  g_clip_actions : Bool
  g_clip_actions_min : List FB
  g_clip_actions_max : List FB
  g_clip_log_std : Bool
  g_log_std_min : ℝ
  g_log_std_max : ℝ
  g_reduction : Option RedOp

/-- Embedding of `GaussianMixin.__init__`: `_g_clip_actions` is the requested
flag AND `isinstance(action_space, gymnasium.Space)`; when set, the
constructor overwrites infinite entries of the caller's `action_space.low` /
`.high` in place and copies the (now sanitized) arrays into its own bound
tensors; an invalid reduction string raises `ValueError`. The returned pair is
(the action space after construction, the stored attributes or the error). -/
noncomputable def gaussianInit (clip_actions clip_log_std : Bool)
    (min_log_std max_log_std : ℝ) (reduction : String)
    (isGymnasiumSpace : Bool) (space : BoxSpace) :
    BoxSpace × Except String GMixinState :=
  let g_clip_actions := clip_actions && isGymnasiumSpace
  let space' := if g_clip_actions then
      BoxSpace.mk (sanitizeLow space.low) (sanitizeHigh space.high)
    else space
  let g_min := if g_clip_actions then sanitizeLow space.low else []
  let g_max := if g_clip_actions then sanitizeHigh space.high else []
  if reduction = "mean" ∨ reduction = "sum" ∨ reduction = "prod" ∨ reduction = "none" then
    (space', .ok (GMixinState.mk g_clip_actions g_min g_max clip_log_std
      min_log_std max_log_std
      (if reduction = "mean" then some .rmean
       else if reduction = "sum" then some .rsum
       else if reduction = "prod" then some .rprod
       else none)))
  else (space', .error "reduction must be one of mean, sum, prod or none")

theorem sanitizeLow_id (l : List FB) (h : l.all (fun b => !b.isNegInf) = true) :
    sanitizeLow l = l := by
  induction l with
  | nil => rfl
  | cons b bs ih =>
      simp only [List.all_cons, Bool.and_eq_true, Bool.not_eq_true'] at h
      rw [sanitizeLow, List.map_cons]
      rw [sanitizeLow] at ih
      rw [ih h.2]
      cases b with
      | negInf => simp [FB.isNegInf] at h
      | posInf => rfl
      | finite x => rfl

theorem sanitizeHigh_id (l : List FB) (h : l.all (fun b => !b.isPosInf) = true) :
    sanitizeHigh l = l := by
  induction l with
  | nil => rfl
  | cons b bs ih =>
      simp only [List.all_cons, Bool.and_eq_true, Bool.not_eq_true'] at h
      rw [sanitizeHigh, List.map_cons]
      rw [sanitizeHigh] at ih
      rw [ih h.2]
      cases b with
      | posInf => simp [FB.isPosInf] at h
      | negInf => rfl
      | finite x => rfl

/-- Counterexample to **C9** as stated: constructing with `clip_actions=True`
on a gymnasium Box space whose `low` contains `-inf` mutates the caller-owned
space descriptor in place — the returned space differs from the input. -/
theorem gaussianInit_no_mutation_refuted :
    (gaussianInit true true (-20) 2 "sum" true
      (BoxSpace.mk [FB.negInf] [FB.finite 1])).1 ≠
      BoxSpace.mk [FB.negInf] [FB.finite 1] := by
  have h0 : (gaussianInit true true (-20) 2 "sum" true
      (BoxSpace.mk [FB.negInf] [FB.finite 1])).1 =
      BoxSpace.mk [FB.finite (-1)] [FB.finite 1] := rfl
  rw [h0]
  intro h
  have h1 := congrArg BoxSpace.low h
  simp at h1

/-- Claim C9 (amended): with `clip_actions` enabled on a gymnasium Box space and
a valid reduction, construction overwrites the infinite entries of the
caller's space in place (`-inf ↦ -1.0` in `low`, `inf ↦ 1.0` in `high`) — the
space descriptor IS mutated whenever it contains an infinite bound, and is
left unchanged exactly when it has none; the policy's own bound values are
copies of the sanitized arrays. -/
theorem gaussianInit_sanitizes (clip_log_std : Bool) (mn mx : ℝ) (red : String)
    (space : BoxSpace)
    (hred : red = "mean" ∨ red = "sum" ∨ red = "prod" ∨ red = "none") :
    (gaussianInit true clip_log_std mn mx red true space).1 =
      BoxSpace.mk (sanitizeLow space.low) (sanitizeHigh space.high) ∧
    (∃ st, (gaussianInit true clip_log_std mn mx red true space).2 = .ok st ∧
      st.g_clip_actions_min = sanitizeLow space.low ∧
      st.g_clip_actions_max = sanitizeHigh space.high) ∧
    (space.low.all (fun b => !b.isNegInf) = true →
      space.high.all (fun b => !b.isPosInf) = true →
      (gaussianInit true clip_log_std mn mx red true space).1 = space) := by
  have h2 : (gaussianInit true clip_log_std mn mx red true space).2 =
      .ok (GMixinState.mk true (sanitizeLow space.low) (sanitizeHigh space.high)
        clip_log_std mn mx
        (if red = "mean" then some .rmean
         else if red = "sum" then some .rsum
         else if red = "prod" then some .rprod
         else none)) := by
    rw [gaussianInit, if_pos hred]
    rfl
  refine ⟨?_, ⟨_, h2, rfl, rfl⟩, ?_⟩
  · rw [gaussianInit, if_pos hred]
    rfl
  · intro ha hb
    rw [gaussianInit, if_pos hred]
    show BoxSpace.mk (sanitizeLow space.low) (sanitizeHigh space.high) = space
    rw [sanitizeLow_id space.low ha, sanitizeHigh_id space.high hb]

/-- Witness for **C9** (amended) on a space with `low = [-inf]`,
`high = [1]`. -/
theorem gaussianInit_sanitizes_witness :
    (gaussianInit true true (-20) 2 "sum" true
      (BoxSpace.mk [FB.negInf] [FB.finite 1])).1 =
      BoxSpace.mk (sanitizeLow [FB.negInf]) (sanitizeHigh [FB.finite 1]) ∧
    (∃ st, (gaussianInit true true (-20) 2 "sum" true
        (BoxSpace.mk [FB.negInf] [FB.finite 1])).2 = .ok st ∧
      st.g_clip_actions_min = sanitizeLow [FB.negInf] ∧
      st.g_clip_actions_max = sanitizeHigh [FB.finite 1]) ∧
    (([FB.negInf] : List FB).all (fun b => !b.isNegInf) = true →
      ([FB.finite 1] : List FB).all (fun b => !b.isPosInf) = true →
      (gaussianInit true true (-20) 2 "sum" true
        (BoxSpace.mk [FB.negInf] [FB.finite 1])).1 =
        BoxSpace.mk [FB.negInf] [FB.finite 1]) :=
  gaussianInit_sanitizes true (-20) 2 "sum"
    (BoxSpace.mk [FB.negInf] [FB.finite 1]) (by simp)

/-- Claim C10: requesting `clip_actions=True` while the model's action space is
not a `gymnasium.Space` silently disables clipping: construction succeeds with
no error, produces exactly the state that `clip_actions=False` would (no
bounds derived, flag off, caller's space untouched), and `act` on the
resulting attributes behaves exactly as with `clip_actions=False`. -/
theorem gaussianInit_non_gymnasium (clip_log_std : Bool) (mn mx : ℝ) (red : String)
    (space : BoxSpace)
    (hred : red = "mean" ∨ red = "sum" ∨ red = "prod" ∨ red = "none") :
    gaussianInit true clip_log_std mn mx red false space =
      gaussianInit false clip_log_std mn mx red false space ∧
    (gaussianInit true clip_log_std mn mx red false space).1 = space ∧
    ∃ st, (gaussianInit true clip_log_std mn mx red false space).2 = .ok st ∧
      st.g_clip_actions = false ∧
      ∀ bmin bmax mean_actions log_std noise taken_actions,
        act (GaussCfg.mk st.g_clip_actions st.g_clip_log_std st.g_log_std_min
            st.g_log_std_max st.g_reduction bmin bmax)
          mean_actions log_std noise taken_actions =
        act (GaussCfg.mk false clip_log_std mn mx st.g_reduction bmin bmax)
          mean_actions log_std noise taken_actions := by
  have h2 : (gaussianInit true clip_log_std mn mx red false space).2 =
      .ok (GMixinState.mk false [] [] clip_log_std mn mx
        (if red = "mean" then some .rmean
         else if red = "sum" then some .rsum
         else if red = "prod" then some .rprod
         else none)) := by
    rw [gaussianInit, if_pos hred]
    rfl
  refine ⟨rfl, ?_, _, h2, rfl, ?_⟩
  · rw [gaussianInit, if_pos hred]
    rfl
  · intro bmin bmax mean_actions log_std noise taken_actions
    rfl

/-- Witness for **C10** with reduction `"sum"` and an empty Box space. -/
theorem gaussianInit_non_gymnasium_witness :
    gaussianInit true true (-20) 2 "sum" false (BoxSpace.mk [] []) =
      gaussianInit false true (-20) 2 "sum" false (BoxSpace.mk [] []) ∧
    (gaussianInit true true (-20) 2 "sum" false (BoxSpace.mk [] [])).1 =
      BoxSpace.mk [] [] ∧
    ∃ st, (gaussianInit true true (-20) 2 "sum" false (BoxSpace.mk [] [])).2 = .ok st ∧
      st.g_clip_actions = false ∧
      ∀ bmin bmax mean_actions log_std noise taken_actions,
        act (GaussCfg.mk st.g_clip_actions st.g_clip_log_std st.g_log_std_min
            st.g_log_std_max st.g_reduction bmin bmax)
          mean_actions log_std noise taken_actions =
        act (GaussCfg.mk false true (-20) 2 st.g_reduction bmin bmax)
          mean_actions log_std noise taken_actions :=
  gaussianInit_non_gymnasium true (-20) 2 "sum" (BoxSpace.mk [] []) (by simp)

end Skrl
